import Mathlib

/-!
Verification of the sentinel-golang core against its specification.

This file gives a shallow embedding, in Lean 4, of the parts of the
repository that the checked properties talk about:

* the sliding-window bucket ring (LeapArray, BucketWrap) from
  core/flow/slot.go (package base section),
* the slot-chain pipeline (SlotChain.Entry / exit) from
  core/base/slot_chain.go,
* the flow rule-check slot (Slot.Check, checkInLocal) and the default
  stat slot (OnEntryPassed / OnEntryBlocked / OnCompleted) from
  core/flow/slot.go,
* the metric aggregator (doAggregate and friends) from
  core/log/metric/aggregator.go.

Conventions of the embedding:

* Go uint64 arithmetic is modelled on Nat with an explicit wrap-around
  subtraction usub64 (reduction mod 2 to the 64), which matters for the
  expiry check isBucketDeprecated.
* The code is lock-free or mutex guarded; the embedding is the
  sequential (contention-free) semantics: TryLock succeeds and CAS
  succeeds, which is the unique behaviour of each operation when run
  without interference.  Spin branches that only retry on contention
  therefore execute their body once.
* Mutation of Go structures is explicit state passing.
* Counter side effects (exporter counters, sleeps) and callback
  invocations are recorded in explicit event logs so that claims about
  which callback runs, and how often, can be stated.
* Logging is not modelled.
-/

set_option maxHeartbeats 1000000

namespace Sentinel

/-- Size of the Go uint64 value space, 2 to the 64. -/
def UINT64SIZE : Nat := 18446744073709551616

/-- Go uint64 subtraction a - b with wrap-around, on Nat. -/
def usub64 (a b : Nat) : Nat :=
  (a % UINT64SIZE + (UINT64SIZE - b % UINT64SIZE)) % UINT64SIZE

/-! ## Bucket ring (core/flow/slot.go, package base section)

BucketWrap holds an atomically published start timestamp plus a payload
cell (atomic.Value holding the metric counters).  No checked claim reads
the payload, so only the start timestamp is modelled; the generator
callbacks NewEmptyBucket / ResetBucketTo create, respectively refresh,
the payload and publish the given start. -/

structure BucketWrap where
  BucketStart : Nat
deriving DecidableEq, Repr

/-- calculateStartTime from slot.go: now - (now mod bucketLengthInMs). -/
def calculateStartTime (now : Nat) (bucketLengthInMs : Nat) : Nat :=
  now - now % bucketLengthInMs

/-- AtomicBucketWrapArray.get: the slot pointer at idx, nil when out of
bounds (elementOffset reports an error and get returns nil). -/
def arrGet (data : List (Option BucketWrap)) (idx : Nat) : Option BucketWrap :=
  (data.get? idx).getD none

/-- LeapArray from slot.go.  The internal AtomicBucketWrapArray is the
list of slots; its length field is the list length. -/
structure LeapArray where
  bucketLengthInMs : Nat
  sampleCount : Nat
  intervalInMs : Nat
  array : List (Option BucketWrap)
deriving DecidableEq, Repr

/-- LeapArray.calculateTimeIdx: (now / bucketLengthInMs) mod array
length.  (Go converts the quotient to int; for timestamps below 2 to
the 63 times the bucket length this is the same value.) -/
def LeapArray.calculateTimeIdx (la : LeapArray) (now : Nat) : Nat :=
  (now / la.bucketLengthInMs) % la.array.length

/-- LeapArray.isBucketDeprecated: (now - ws) > intervalInMs with uint64
wrap-around subtraction. -/
def LeapArray.isBucketDeprecated (la : LeapArray) (now : Nat) (ww : BucketWrap) : Bool :=
  decide (la.intervalInMs < usub64 now ww.BucketStart)

/-- Store a wrap into slot idx of the ring (the effect of the CAS in
the nil branch and of ResetBucketTo publishing the new start). -/
def LeapArray.withSlot (la : LeapArray) (idx : Nat) (w : BucketWrap) : LeapArray :=
  { la with array := la.array.set idx (some w) }

/-- LeapArray.currentBucketOfTime.  Sequential semantics of the spin
loop: the nil slot branch installs a fresh wrap via CAS, the hot branch
returns the held wrap, the stale branch takes the update lock and
resets the wrap to the computed start, the past-time branch tolerates
sampleCount == 1 and fails otherwise.  The updated ring is returned
alongside the wrap. -/
def LeapArray.currentBucketOfTime (la : LeapArray) (now : Nat) :
    Except String (BucketWrap × LeapArray) :=
  if now = 0 then
    Except.error "Current time is less than 0."
  else
    match arrGet la.array (la.calculateTimeIdx now) with
    | none =>
      -- theoretically unreachable: the ring is pre-filled at construction
      Except.ok (⟨calculateStartTime now la.bucketLengthInMs⟩,
        la.withSlot (la.calculateTimeIdx now) ⟨calculateStartTime now la.bucketLengthInMs⟩)
    | some old =>
      if calculateStartTime now la.bucketLengthInMs = old.BucketStart then
        Except.ok (old, la)
      else if old.BucketStart < calculateStartTime now la.bucketLengthInMs then
        -- generator.ResetBucketTo(old, bucketStart): in-place refresh
        Except.ok (⟨calculateStartTime now la.bucketLengthInMs⟩,
          la.withSlot (la.calculateTimeIdx now) ⟨calculateStartTime now la.bucketLengthInMs⟩)
      else if la.sampleCount = 1 then
        Except.ok (old, la)
      else
        Except.error "Provided time is already behind the held bucket start."

/-- LeapArray.valuesWithTime: all non-nil, non-deprecated wraps. -/
def LeapArray.valuesWithTime (la : LeapArray) (now : Nat) : List BucketWrap :=
  if now = 0 then []
  else
    (List.range la.array.length).filterMap (fun i =>
      match arrGet la.array i with
      | none => none
      | some ww => if la.isBucketDeprecated now ww then none else some ww)

/-- LeapArray.ValuesConditional: all non-nil, non-deprecated wraps whose
start satisfies the predicate. -/
def LeapArray.ValuesConditional (la : LeapArray) (now : Nat) (predicate : Nat → Bool) :
    List BucketWrap :=
  if now = 0 then []
  else
    (List.range la.array.length).filterMap (fun i =>
      match arrGet la.array i with
      | none => none
      | some ww =>
        if la.isBucketDeprecated now ww then none
        else if predicate ww.BucketStart then some ww else none)

/-- NewAtomicBucketWrapArrayWithTime: slots are pre-filled walking
forward from idx = (now / bucketLengthInMs) mod len and wrapping, with
start times startTime, startTime + L, ...: slot i for i >= idx receives
the (i - idx)-th start, slot i < idx receives the (len - idx + i)-th. -/
def NewAtomicBucketWrapArrayWithTime (len : Nat) (bucketLengthInMs : Nat) (now : Nat) :
    List (Option BucketWrap) :=
  let idx := (now / bucketLengthInMs) % len
  let startTime := calculateStartTime now bucketLengthInMs
  (List.range len).map (fun i =>
    if idx ≤ i then some ⟨startTime + (i - idx) * bucketLengthInMs⟩
    else some ⟨startTime + (len - idx + i) * bucketLengthInMs⟩)

/-- NewLeapArray at construction instant now (Go reads the clock inside
NewAtomicBucketWrapArray).  Parameter validation mirrors the source;
the generator argument is not modelled (its nil check always passes for
a real generator). -/
def NewLeapArray (sampleCount intervalInMs : Nat) (now : Nat) : Except String LeapArray :=
  if sampleCount = 0 ∨ intervalInMs % sampleCount ≠ 0 then
    Except.error "Invalid parameters"
  else
    let bucketLengthInMs := intervalInMs / sampleCount
    Except.ok
      { bucketLengthInMs := bucketLengthInMs
        sampleCount := sampleCount
        intervalInMs := intervalInMs
        array := NewAtomicBucketWrapArrayWithTime sampleCount bucketLengthInMs now }

/-! Helper lemmas about the ring. -/

lemma currentBucketOfTime_none_eq (la : LeapArray) (now : Nat) (hz : now ≠ 0)
    (h : arrGet la.array (la.calculateTimeIdx now) = none) :
    la.currentBucketOfTime now =
      Except.ok (⟨calculateStartTime now la.bucketLengthInMs⟩,
        la.withSlot (la.calculateTimeIdx now) ⟨calculateStartTime now la.bucketLengthInMs⟩) := by
  unfold LeapArray.currentBucketOfTime
  rw [if_neg hz, h]

lemma currentBucketOfTime_some_eq (la : LeapArray) (now : Nat) (old : BucketWrap)
    (hz : now ≠ 0) (h : arrGet la.array (la.calculateTimeIdx now) = some old) :
    la.currentBucketOfTime now =
      (if calculateStartTime now la.bucketLengthInMs = old.BucketStart then
        Except.ok (old, la)
      else if old.BucketStart < calculateStartTime now la.bucketLengthInMs then
        Except.ok (⟨calculateStartTime now la.bucketLengthInMs⟩,
          la.withSlot (la.calculateTimeIdx now) ⟨calculateStartTime now la.bucketLengthInMs⟩)
      else if la.sampleCount = 1 then
        Except.ok (old, la)
      else
        Except.error "Provided time is already behind the held bucket start.") := by
  unfold LeapArray.currentBucketOfTime
  rw [if_neg hz, h]

lemma usub64_eq_sub (a b : Nat) (hb : b ≤ a) (ha : a < UINT64SIZE) :
    usub64 a b = a - b := by
  unfold usub64 UINT64SIZE at *
  omega

lemma mem_valuesWithTime_not_deprecated (la : LeapArray) (now : Nat) (ww : BucketWrap)
    (h : ww ∈ la.valuesWithTime now) : la.isBucketDeprecated now ww = false := by
  unfold LeapArray.valuesWithTime at h
  split at h
  · simp at h
  · rw [List.mem_filterMap] at h
    obtain ⟨i, _, hfn⟩ := h
    rcases harr : arrGet la.array i with _ | w
    · rw [harr] at hfn; simp at hfn
    · rw [harr] at hfn
      by_cases hdep : la.isBucketDeprecated now w
      · simp [hdep] at hfn
      · simp [hdep] at hfn
        simpa [hfn] using eq_false_of_ne_true hdep

lemma mem_valuesConditional_not_deprecated (la : LeapArray) (now : Nat)
    (predicate : Nat → Bool) (ww : BucketWrap)
    (h : ww ∈ la.ValuesConditional now predicate) :
    la.isBucketDeprecated now ww = false := by
  unfold LeapArray.ValuesConditional at h
  split at h
  · simp at h
  · rw [List.mem_filterMap] at h
    obtain ⟨i, _, hfn⟩ := h
    rcases harr : arrGet la.array i with _ | w
    · rw [harr] at hfn; simp at hfn
    · rw [harr] at hfn
      by_cases hdep : la.isBucketDeprecated now w
      · simp [hdep] at hfn
      · by_cases hp : predicate w.BucketStart
        · simp [hdep, hp] at hfn
          simpa [hfn] using eq_false_of_ne_true hdep
        · simp [hdep, hp] at hfn

/-- Claim C9: for every timestamp now, the list returned by
valuesWithTime contains no expired bucket: every member whose start is
at most now satisfies now - start <= intervalInMs.  Hence as now
advances, any bucket that becomes expired drops out of the result. -/
theorem valuesWithTime_excludes_expired (la : LeapArray) (now : Nat) (ww : BucketWrap)
    (hnow : now < UINT64SIZE)
    (hmem : ww ∈ la.valuesWithTime now)
    (hle : ww.BucketStart ≤ now) :
    now - ww.BucketStart ≤ la.intervalInMs := by
  have hdep := mem_valuesWithTime_not_deprecated la now ww hmem
  unfold LeapArray.isBucketDeprecated at hdep
  rw [usub64_eq_sub now ww.BucketStart hle hnow] at hdep
  simpa using hdep

/-- Witness for valuesWithTime_excludes_expired at a concrete ring. -/
theorem valuesWithTime_excludes_expired_witness :
    1200 - 500 ≤ (1000 : Nat) :=
  valuesWithTime_excludes_expired ⟨500, 2, 1000, [some ⟨500⟩, some ⟨1000⟩]⟩ 1200 ⟨500⟩
    (by decide) (by decide) (by decide)

/-- Claim C10: expiry is decided by the unsigned 64-bit subtraction
now - start, so a bucket whose start lies strictly after now (with
intervalInMs below 2 to the 64 minus the start, which holds for every
uint32 interval) is classified as deprecated, and valuesWithTime and
ValuesConditional exclude it. -/
theorem future_start_buckets_excluded (la : LeapArray) (now : Nat) (ww : BucketWrap)
    (predicate : Nat → Bool)
    (hfut : now < ww.BucketStart)
    (hws : ww.BucketStart < UINT64SIZE)
    (hint : la.intervalInMs < UINT64SIZE - ww.BucketStart) :
    la.isBucketDeprecated now ww = true ∧
    ww ∉ la.valuesWithTime now ∧
    ww ∉ la.ValuesConditional now predicate := by
  have hdep : la.isBucketDeprecated now ww = true := by
    unfold LeapArray.isBucketDeprecated usub64 UINT64SIZE at *
    simp only [decide_eq_true_eq]
    omega
  refine ⟨hdep, ?_, ?_⟩
  · intro hmem
    have := mem_valuesWithTime_not_deprecated la now ww hmem
    rw [hdep] at this
    cases this
  · intro hmem
    have := mem_valuesConditional_not_deprecated la now predicate ww hmem
    rw [hdep] at this
    cases this

/-- Witness for future_start_buckets_excluded at a concrete ring whose
slot holds a start after now, as construction pre-populates. -/
theorem future_start_buckets_excluded_witness :
    LeapArray.isBucketDeprecated ⟨500, 2, 1000, [some ⟨2000⟩, some ⟨1500⟩]⟩ 1200 ⟨2000⟩ = true ∧
    (⟨2000⟩ : BucketWrap) ∉ LeapArray.valuesWithTime ⟨500, 2, 1000, [some ⟨2000⟩, some ⟨1500⟩]⟩ 1200 ∧
    (⟨2000⟩ : BucketWrap) ∉ LeapArray.ValuesConditional ⟨500, 2, 1000, [some ⟨2000⟩, some ⟨1500⟩]⟩ 1200 (fun _ => true) :=
  future_start_buckets_excluded ⟨500, 2, 1000, [some ⟨2000⟩, some ⟨1500⟩]⟩ 1200 ⟨2000⟩
    (fun _ => true) (by decide) (by decide) (by decide)

/-- Claim C8: when the held bucket start is strictly ahead of the start
computed from now, currentBucketOfTime returns the held bucket without
error for sampleCount == 1 and fails with an error for any other
sampleCount. -/
theorem currentBucketOfTime_time_in_past (la : LeapArray) (now : Nat) (old : BucketWrap)
    (hnow : now ≠ 0)
    (hheld : arrGet la.array (la.calculateTimeIdx now) = some old)
    (hpast : calculateStartTime now la.bucketLengthInMs < old.BucketStart) :
    (la.sampleCount = 1 → la.currentBucketOfTime now = Except.ok (old, la)) ∧
    (la.sampleCount ≠ 1 → ∃ msg, la.currentBucketOfTime now = Except.error msg) := by
  have hne : calculateStartTime now la.bucketLengthInMs ≠ old.BucketStart :=
    Nat.ne_of_lt hpast
  have hnlt : ¬ old.BucketStart < calculateStartTime now la.bucketLengthInMs :=
    Nat.not_lt.mpr (Nat.le_of_lt hpast)
  rw [currentBucketOfTime_some_eq la now old hnow hheld, if_neg hne, if_neg hnlt]
  constructor
  · intro h1
    rw [if_pos h1]
  · intro h1
    rw [if_neg h1]
    exact ⟨_, rfl⟩

/-- Witness for currentBucketOfTime_time_in_past: both the tolerated
sampleCount == 1 return and the error for sampleCount == 2. -/
theorem currentBucketOfTime_time_in_past_witness :
    LeapArray.currentBucketOfTime ⟨1000, 1, 1000, [some ⟨2000⟩]⟩ 500 =
      Except.ok (⟨2000⟩, ⟨1000, 1, 1000, [some ⟨2000⟩]⟩) ∧
    ∃ msg, LeapArray.currentBucketOfTime ⟨500, 2, 1000, [some ⟨2000⟩, some ⟨2500⟩]⟩ 700 =
      Except.error msg :=
  ⟨(currentBucketOfTime_time_in_past ⟨1000, 1, 1000, [some ⟨2000⟩]⟩ 500 ⟨2000⟩
      (by decide) rfl (by decide)).1 rfl,
   (currentBucketOfTime_time_in_past ⟨500, 2, 1000, [some ⟨2000⟩, some ⟨2500⟩]⟩ 700 ⟨2500⟩
      (by decide) rfl (by decide)).2 (by decide)⟩

/-- Claim C1 counterexample: a ring built by NewLeapArray with the valid
parameters sampleCount = 1, intervalInMs = 1000 at construction instant
1500 holds slot start 1000; currentBucketOfTime(500) returns that wrap
without error, yet its start 1000 does not satisfy start <= 500.  The
claim as stated is therefore false: the tolerated past-time return for
sampleCount == 1 yields a wrap whose window does not contain now. -/
theorem currentBucket_claim_counterexample :
    NewLeapArray 1 1000 1500 = Except.ok ⟨1000, 1, 1000, [some ⟨1000⟩]⟩ ∧
    LeapArray.currentBucketOfTime ⟨1000, 1, 1000, [some ⟨1000⟩]⟩ 500 =
      Except.ok (⟨1000⟩, ⟨1000, 1, 1000, [some ⟨1000⟩]⟩) ∧
    ¬ ((1000 : Nat) ≤ 500) :=
  ⟨rfl, rfl, by decide⟩

/-- Claim C1 as amended: for rings with sampleCount different from 1
(the counterexample lives in the degenerate sampleCount == 1 past-time
branch), whenever currentBucketOfTime returns a wrap without error its
start is now - (now mod bucketLengthInMs) and its window
[start, start + bucketLengthInMs) contains now. -/
theorem currentBucketOfTime_start_bounds (la : LeapArray) (now : Nat)
    (ww : BucketWrap) (la2 : LeapArray)
    (hL : 0 < la.bucketLengthInMs) (hs : la.sampleCount ≠ 1)
    (hok : la.currentBucketOfTime now = Except.ok (ww, la2)) :
    ww.BucketStart = now - now % la.bucketLengthInMs ∧
    ww.BucketStart ≤ now ∧ now < ww.BucketStart + la.bucketLengthInMs := by
  have hmod : now % la.bucketLengthInMs < la.bucketLengthInMs := Nat.mod_lt now hL
  have hbase : ∀ w : BucketWrap, w.BucketStart = calculateStartTime now la.bucketLengthInMs →
      ww = w → ww.BucketStart = now - now % la.bucketLengthInMs ∧
        ww.BucketStart ≤ now ∧ now < ww.BucketStart + la.bucketLengthInMs := by
    intro w hw hwww
    subst hwww
    rw [hw]
    unfold calculateStartTime
    omega
  by_cases hz : now = 0
  · rw [LeapArray.currentBucketOfTime, if_pos hz] at hok
    exact absurd hok (by simp)
  rcases harr : arrGet la.array (la.calculateTimeIdx now) with _ | old
  · -- nil slot branch: the fresh wrap carries the computed start
    rw [currentBucketOfTime_none_eq la now hz harr] at hok
    simp only [Except.ok.injEq, Prod.mk.injEq] at hok
    exact hbase _ rfl hok.1.symm
  rw [currentBucketOfTime_some_eq la now old hz harr] at hok
  by_cases heq : calculateStartTime now la.bucketLengthInMs = old.BucketStart
  · -- hot path: the held start equals the computed start
    rw [if_pos heq] at hok
    simp only [Except.ok.injEq, Prod.mk.injEq] at hok
    exact hbase old heq.symm hok.1.symm
  rw [if_neg heq] at hok
  by_cases hlt : old.BucketStart < calculateStartTime now la.bucketLengthInMs
  · -- stale slot: reset to the computed start
    rw [if_pos hlt] at hok
    simp only [Except.ok.injEq, Prod.mk.injEq] at hok
    exact hbase _ rfl hok.1.symm
  rw [if_neg hlt, if_neg hs] at hok
  exact absurd hok (by simp)

/-- Witness for currentBucketOfTime_start_bounds at a concrete two-slot
ring on the hot path. -/
theorem currentBucketOfTime_start_bounds_witness :
    (⟨500⟩ : BucketWrap).BucketStart = 700 - 700 % 500 ∧
    (⟨500⟩ : BucketWrap).BucketStart ≤ 700 ∧
    700 < (⟨500⟩ : BucketWrap).BucketStart + 500 :=
  currentBucketOfTime_start_bounds ⟨500, 2, 1000, [some ⟨1000⟩, some ⟨500⟩]⟩ 700
    ⟨500⟩ ⟨500, 2, 1000, [some ⟨1000⟩, some ⟨500⟩]⟩ (by decide) (by decide) rfl

/-! ## Default stat slot (core/flow/slot.go, package stat section)

Modelled from the spec: the per-node metric counters behind
base.StatNode (package core/stat is not part of the sources at hand;
the spec describes a node exposing add(event, count),
increase/decreaseConcurrency).  NodeCounters carries one counter per
metric event plus the concurrency gauge; AddCount on an event is
addition on the corresponding field. -/

structure NodeCounters where
  pass : Nat
  block : Nat
  complete : Nat
  error : Nat
  rt : Nat
  concurrency : Int
deriving DecidableEq, Repr

/-- Slot.recordPassFor body once the nil check passed:
IncreaseConcurrency then AddCount(MetricEventPass, count). -/
def recordPassForNode (n : NodeCounters) (count : Nat) : NodeCounters :=
  { n with concurrency := n.concurrency + 1, pass := n.pass + count }

/-- Slot.recordPassFor: nil node is a no-op. -/
def recordPassFor : Option NodeCounters → Nat → Option NodeCounters
  | none, _ => none
  | some n, count => some (recordPassForNode n count)

/-- Slot.recordBlockFor body: AddCount(MetricEventBlock, count). -/
def recordBlockForNode (n : NodeCounters) (count : Nat) : NodeCounters :=
  { n with block := n.block + count }

/-- Slot.recordBlockFor: nil node is a no-op. -/
def recordBlockFor : Option NodeCounters → Nat → Option NodeCounters
  | none, _ => none
  | some n, count => some (recordBlockForNode n count)

/-- Slot.recordCompleteFor body: AddCount(MetricEventError, count) when
an error was traced, AddCount(MetricEventRt, rt),
AddCount(MetricEventComplete, count), DecreaseConcurrency. -/
def recordCompleteForNode (n : NodeCounters) (count : Nat) (rtv : Nat)
    (errTraced : Bool) : NodeCounters :=
  let n1 := if errTraced then { n with error := n.error + count } else n
  { n1 with
    rt := n1.rt + rtv
    complete := n1.complete + count
    concurrency := n1.concurrency - 1 }

/-- Slot.recordCompleteFor: nil node is a no-op. -/
def recordCompleteFor : Option NodeCounters → Nat → Nat → Bool → Option NodeCounters
  | none, _, _, _ => none
  | some n, count, rtv, errTraced => some (recordCompleteForNode n count rtv errTraced)

/-- The part of the EntryContext the stat slot reads: Input.BatchCount,
whether Resource.FlowType() is Inbound, ctx.StartTime(), and whether
ctx.Err() is non-nil (an error was traced). -/
structure StatCtx where
  batchCount : Nat
  inbound : Bool
  startTime : Nat
  errTraced : Bool
deriving DecidableEq, Repr

/-- The statistics state the stat slot touches: the resource node
attached to the context (possibly nil) and the global inbound node
(never nil). -/
structure StatState where
  resNode : Option NodeCounters
  inboundNode : NodeCounters
deriving DecidableEq, Repr

/-- Slot.OnEntryPassed: record a pass on the node, and on the inbound
node when the flow type is inbound.  (The handled_total exporter
counter is not modelled.) -/
def statOnEntryPassed (st : StatState) (c : StatCtx) : StatState :=
  let st1 : StatState := { st with resNode := recordPassFor st.resNode c.batchCount }
  if c.inbound then
    { st1 with inboundNode := recordPassForNode st1.inboundNode c.batchCount }
  else st1

/-- Slot.OnEntryBlocked: record a block on the node, and on the inbound
node when the flow type is inbound. -/
def statOnEntryBlocked (st : StatState) (c : StatCtx) : StatState :=
  let st1 : StatState := { st with resNode := recordBlockFor st.resNode c.batchCount }
  if c.inbound then
    { st1 with inboundNode := recordBlockForNode st1.inboundNode c.batchCount }
  else st1

/-- Slot.OnCompleted: rt := now - ctx.StartTime() (uint64 subtraction),
then record completion on the node, and on the inbound node when the
flow type is inbound.  (ctx.PutRt stores rt on the context and is not
read by any claim.) -/
def statOnCompleted (st : StatState) (c : StatCtx) (now : Nat) : StatState :=
  let rtv := usub64 now c.startTime
  let st1 : StatState :=
    { st with resNode := recordCompleteFor st.resNode c.batchCount rtv c.errTraced }
  if c.inbound then
    { st1 with inboundNode := recordCompleteForNode st1.inboundNode c.batchCount rtv c.errTraced }
  else st1

/-- Claim C5: the default stat slot accounting.  On pass the node gains
batchCount on pass and one unit of concurrency, with block, complete,
error and rt unchanged, and the inbound node is updated the same way
exactly when the entry is inbound.  On block only the block counter
gains batchCount.  On complete, with rt = now - startTime, complete
gains batchCount, rt gains rt, error gains batchCount exactly when an
error was traced, and concurrency drops by one. -/
theorem stat_slot_accounting (st : StatState) (c : StatCtx) (n : NodeCounters) (now : Nat)
    (hst : st.resNode = some n) (hrt : c.startTime ≤ now) (hW : now < UINT64SIZE) :
    ((statOnEntryPassed st c).resNode =
        some { n with pass := n.pass + c.batchCount, concurrency := n.concurrency + 1 }) ∧
    ((statOnEntryPassed st c).inboundNode =
        if c.inbound then
          { st.inboundNode with
            pass := st.inboundNode.pass + c.batchCount
            concurrency := st.inboundNode.concurrency + 1 }
        else st.inboundNode) ∧
    ((statOnEntryBlocked st c).resNode =
        some { n with block := n.block + c.batchCount }) ∧
    ((statOnEntryBlocked st c).inboundNode =
        if c.inbound then
          { st.inboundNode with block := st.inboundNode.block + c.batchCount }
        else st.inboundNode) ∧
    ((statOnCompleted st c now).resNode =
        some { n with
          complete := n.complete + c.batchCount
          rt := n.rt + (now - c.startTime)
          error := n.error + (if c.errTraced then c.batchCount else 0)
          concurrency := n.concurrency - 1 }) ∧
    ((statOnCompleted st c now).inboundNode =
        if c.inbound then
          { st.inboundNode with
            complete := st.inboundNode.complete + c.batchCount
            rt := st.inboundNode.rt + (now - c.startTime)
            error := st.inboundNode.error + (if c.errTraced then c.batchCount else 0)
            concurrency := st.inboundNode.concurrency - 1 }
        else st.inboundNode) := by
  have hsub : usub64 now c.startTime = now - c.startTime := usub64_eq_sub now c.startTime hrt hW
  refine ⟨?_, ?_, ?_, ?_, ?_, ?_⟩
  · cases hc : c.inbound <;>
      simp [statOnEntryPassed, recordPassFor, recordPassForNode, hst, hc]
  · cases hc : c.inbound <;>
      simp [statOnEntryPassed, recordPassFor, recordPassForNode, hst, hc]
  · cases hc : c.inbound <;>
      simp [statOnEntryBlocked, recordBlockFor, recordBlockForNode, hst, hc]
  · cases hc : c.inbound <;>
      simp [statOnEntryBlocked, recordBlockFor, recordBlockForNode, hst, hc]
  · cases he : c.errTraced <;> cases hc : c.inbound <;>
      simp [statOnCompleted, recordCompleteFor, recordCompleteForNode, hst, hc, he, hsub]
  · cases he : c.errTraced <;> cases hc : c.inbound <;>
      simp [statOnCompleted, recordCompleteFor, recordCompleteForNode, hst, hc, he, hsub]

/-- Witness for stat_slot_accounting at a concrete node and context. -/
theorem stat_slot_accounting_witness :
    ((statOnEntryPassed ⟨some ⟨1, 2, 3, 4, 5, 6⟩, ⟨0, 0, 0, 0, 0, 0⟩⟩ ⟨10, true, 100, true⟩).resNode =
        some ⟨11, 2, 3, 4, 5, 7⟩) ∧
    ((statOnEntryPassed ⟨some ⟨1, 2, 3, 4, 5, 6⟩, ⟨0, 0, 0, 0, 0, 0⟩⟩ ⟨10, true, 100, true⟩).inboundNode =
        ⟨10, 0, 0, 0, 0, 1⟩) ∧
    ((statOnEntryBlocked ⟨some ⟨1, 2, 3, 4, 5, 6⟩, ⟨0, 0, 0, 0, 0, 0⟩⟩ ⟨10, true, 100, true⟩).resNode =
        some ⟨1, 12, 3, 4, 5, 6⟩) ∧
    ((statOnEntryBlocked ⟨some ⟨1, 2, 3, 4, 5, 6⟩, ⟨0, 0, 0, 0, 0, 0⟩⟩ ⟨10, true, 100, true⟩).inboundNode =
        ⟨0, 10, 0, 0, 0, 0⟩) ∧
    ((statOnCompleted ⟨some ⟨1, 2, 3, 4, 5, 6⟩, ⟨0, 0, 0, 0, 0, 0⟩⟩ ⟨10, true, 100, true⟩ 130).resNode =
        some ⟨1, 2, 13, 14, 35, 5⟩) ∧
    ((statOnCompleted ⟨some ⟨1, 2, 3, 4, 5, 6⟩, ⟨0, 0, 0, 0, 0, 0⟩⟩ ⟨10, true, 100, true⟩ 130).inboundNode =
        ⟨0, 0, 10, 10, 30, -1⟩) := by
  have h := stat_slot_accounting ⟨some ⟨1, 2, 3, 4, 5, 6⟩, ⟨0, 0, 0, 0, 0, 0⟩⟩
    ⟨10, true, 100, true⟩ ⟨1, 2, 3, 4, 5, 6⟩ 130 rfl (by decide) (by decide)
  exact ⟨h.1, h.2.1, h.2.2.1, h.2.2.2.1, h.2.2.2.2.1, h.2.2.2.2.2⟩

/-! ## Slot chain (core/base/slot_chain.go)

Modelled from the spec: TokenResult (a tagged value Pass, Blocked with
a block error, or ShouldWait with nanosToWait), its accessors
IsBlocked / ResetToPass, and the EntryContext accessors SetError and
IsBlocked, whose implementations live in core/base files other than
slot_chain.go.  The spec says the RuleCheckResult is initially pass,
IsBlocked reports a blocked result, ResetToPass turns the carried
result back into a pass, and SetError records an error on the context.

Slot behaviours are arbitrary functions of the context that either
return normally or panic; the embedding of SlotChain.Entry records
every callback invocation in an event trace so that claims about which
callbacks run can be stated.  The trace is emitted by the chain
harness, not by the slots, mirroring the call sites in the source. -/

inductive ResultStatus
  | Pass
  | Blocked
  | ShouldWait
deriving DecidableEq, Repr

structure BlockError where
  blockMsg : String
deriving DecidableEq, Repr

structure TokenResult where
  status : ResultStatus
  blockErr : Option BlockError
  nanosToWait : Nat
deriving DecidableEq, Repr

def TokenResult.IsBlocked (r : TokenResult) : Bool :=
  r.status == ResultStatus.Blocked

def NewTokenResultPass : TokenResult := ⟨ResultStatus.Pass, none, 0⟩

def TokenResult.ResetToPass (r : TokenResult) : TokenResult :=
  { r with status := ResultStatus.Pass, blockErr := none }

/-- The parts of base.EntryContext the chain reads and writes. -/
structure EntryContext where
  ruleCheckResult : TokenResult
  err : Option String
  startTime : Nat
  hasEntry : Bool
deriving DecidableEq, Repr

def EntryContext.SetError (c : EntryContext) (m : String) : EntryContext :=
  { c with err := some m }

def EntryContext.IsBlocked (c : EntryContext) : Bool :=
  c.ruleCheckResult.IsBlocked

/-- Outcome of running one slot callback: a normal return or a panic
carrying the context state at the moment of the panic. -/
inductive SlotOutcome (α : Type)
  | ok (a : α)
  | panicked (msg : String) (ctxAtPanic : EntryContext)

/-- Callback invocations recorded by the chain, by phase and slot
position. -/
inductive ChainEvent
  | prepare (i : Nat)
  | check (i : Nat)
  | onPassed (i : Nat)
  | onBlocked (i : Nat)
  | onCompleted (i : Nat)
deriving DecidableEq, Repr

structure StatPrepareSlotM where
  prepareFn : EntryContext → SlotOutcome EntryContext

structure RuleCheckSlotM where
  checkFn : EntryContext → SlotOutcome (Option TokenResult × EntryContext)

structure StatSlotM where
  onEntryPassedFn : EntryContext → SlotOutcome EntryContext
  onEntryBlockedFn : EntryContext → Option BlockError → SlotOutcome EntryContext
  onCompletedFn : EntryContext → SlotOutcome EntryContext

structure SlotChain where
  statPres : List StatPrepareSlotM
  ruleChecks : List RuleCheckSlotM
  stats : List StatSlotM

/-- The prepare phase: every prepare slot runs in sequence; a panic
aborts the phase. -/
def runPrepares : List StatPrepareSlotM → Nat → EntryContext →
    List ChainEvent × SlotOutcome EntryContext
  | [], _, c => ([], SlotOutcome.ok c)
  | s :: rest, i, c =>
    match s.prepareFn c with
    | SlotOutcome.ok c2 =>
      let r := runPrepares rest (i + 1) c2
      (ChainEvent.prepare i :: r.1, r.2)
    | SlotOutcome.panicked m cp => ([ChainEvent.prepare i], SlotOutcome.panicked m cp)

/-- The rule-check phase: a nil result means pass and the loop
continues; a blocked result is kept and the loop breaks; any other
non-nil result is ignored and the loop continues.  The kept blocked
result (or none) is returned with the context. -/
def runRuleChecks : List RuleCheckSlotM → Nat → EntryContext →
    List ChainEvent × SlotOutcome (Option TokenResult × EntryContext)
  | [], _, c => ([], SlotOutcome.ok (none, c))
  | s :: rest, i, c =>
    match s.checkFn c with
    | SlotOutcome.panicked m cp => ([ChainEvent.check i], SlotOutcome.panicked m cp)
    | SlotOutcome.ok (sr, c2) =>
      match sr with
      | none =>
        let r := runRuleChecks rest (i + 1) c2
        (ChainEvent.check i :: r.1, r.2)
      | some tr =>
        if tr.IsBlocked then ([ChainEvent.check i], SlotOutcome.ok (some tr, c2))
        else
          let r := runRuleChecks rest (i + 1) c2
          (ChainEvent.check i :: r.1, r.2)

/-- The stat phase: every stat slot receives OnEntryBlocked when the
rule-check result is blocked and OnEntryPassed otherwise; a panic
aborts the phase. -/
def runStats : List StatSlotM → Nat → TokenResult → EntryContext →
    List ChainEvent × SlotOutcome EntryContext
  | [], _, _, c => ([], SlotOutcome.ok c)
  | s :: rest, i, ret, c =>
    if !ret.IsBlocked then
      match s.onEntryPassedFn c with
      | SlotOutcome.ok c2 =>
        let r := runStats rest (i + 1) ret c2
        (ChainEvent.onPassed i :: r.1, r.2)
      | SlotOutcome.panicked m cp => ([ChainEvent.onPassed i], SlotOutcome.panicked m cp)
    else
      match s.onEntryBlockedFn c ret.blockErr with
      | SlotOutcome.ok c2 =>
        let r := runStats rest (i + 1) ret c2
        (ChainEvent.onBlocked i :: r.1, r.2)
      | SlotOutcome.panicked m cp => ([ChainEvent.onBlocked i], SlotOutcome.panicked m cp)

/-- The final rule-check result stored into the context after the
rule-check phase: ResetToPass of the carried result when no blocked
result was produced, the blocked result otherwise. -/
def finalTokenResult (rr : Option TokenResult) (c2 : EntryContext) : TokenResult :=
  match rr with
  | none => c2.ruleCheckResult.ResetToPass
  | some r => r

/-- The body of SlotChain.Entry without the deferred recover: prepare
slots, then rule-check slots, then the RuleCheckResult update, then
stat slots. -/
def entryBody (sc : SlotChain) (ctx : EntryContext) :
    List ChainEvent × SlotOutcome (TokenResult × EntryContext) :=
  match runPrepares sc.statPres 0 ctx with
  | (t1, SlotOutcome.panicked m cp) => (t1, SlotOutcome.panicked m cp)
  | (t1, SlotOutcome.ok c1) =>
    match runRuleChecks sc.ruleChecks 0 c1 with
    | (t2, SlotOutcome.panicked m cp) => (t1 ++ t2, SlotOutcome.panicked m cp)
    | (t2, SlotOutcome.ok (rr, c2)) =>
      match runStats sc.stats 0 (finalTokenResult rr c2)
          { c2 with ruleCheckResult := finalTokenResult rr c2 } with
      | (t3, SlotOutcome.panicked m cp) => (t1 ++ t2 ++ t3, SlotOutcome.panicked m cp)
      | (t3, SlotOutcome.ok c4) =>
        (t1 ++ t2 ++ t3, SlotOutcome.ok (finalTokenResult rr c2, c4))

/-- SlotChain.Entry: the body guarded by the deferred recover.  On a
panic anywhere in the chain the recover logs, calls ctx.SetError with
the panic message, and the function returns the nil TokenResult
(modelled as none), which the caller treats as not blocked. -/
def SlotChain.Entry (sc : SlotChain) (ctx : EntryContext) :
    List ChainEvent × Option TokenResult × EntryContext :=
  match entryBody sc ctx with
  | (t, SlotOutcome.ok (r, c)) => (t, some r, c)
  | (t, SlotOutcome.panicked m cp) => (t, none, cp.SetError m)

/-- The completion loop of SlotChain.exit.  exit has no recover: a
panicking OnCompleted aborts the loop. -/
def runCompleteds : List StatSlotM → Nat → EntryContext →
    List ChainEvent × SlotOutcome EntryContext
  | [], _, c => ([], SlotOutcome.ok c)
  | s :: rest, i, c =>
    match s.onCompletedFn c with
    | SlotOutcome.ok c2 =>
      let r := runCompleteds rest (i + 1) c2
      (ChainEvent.onCompleted i :: r.1, r.2)
    | SlotOutcome.panicked m cp => ([ChainEvent.onCompleted i], SlotOutcome.panicked m cp)

/-- SlotChain.exit: a context without a SentinelEntry is rejected with
a log; a blocked context returns without calling any OnCompleted;
otherwise every stat slot receives OnCompleted. -/
def SlotChain.exit (sc : SlotChain) (ctx : EntryContext) :
    List ChainEvent × SlotOutcome EntryContext :=
  if ctx.hasEntry = false then ([], SlotOutcome.ok ctx)
  else if ctx.IsBlocked then ([], SlotOutcome.ok ctx)
  else runCompleteds sc.stats 0 ctx

/-- A stat slot whose OnEntryPassed never panics. -/
def StatSlotM.PassedNoPanic (s : StatSlotM) : Prop :=
  ∀ c, ∃ c2, s.onEntryPassedFn c = SlotOutcome.ok c2

/-- A stat slot whose OnEntryBlocked never panics. -/
def StatSlotM.BlockedNoPanic (s : StatSlotM) : Prop :=
  ∀ c be, ∃ c2, s.onEntryBlockedFn c be = SlotOutcome.ok c2

/-- A stat slot whose OnCompleted never panics. -/
def StatSlotM.CompletedNoPanic (s : StatSlotM) : Prop :=
  ∀ c, ∃ c2, s.onCompletedFn c = SlotOutcome.ok c2

lemma map_range_succ_shift (g : Nat → ChainEvent) (n i : Nat) :
    (List.range (n + 1)).map (fun k => g (i + k)) =
      g i :: (List.range n).map (fun k => g (i + 1 + k)) := by
  rw [List.range_succ_eq_map, List.map_cons, List.map_map]
  have hfun : ((fun k => g (i + k)) ∘ Nat.succ) = fun k => g (i + 1 + k) := by
    funext k
    have harith : i + (k + 1) = i + 1 + k := by omega
    simp only [Function.comp_apply, Nat.succ_eq_add_one, harith]
  rw [hfun]
  rfl

lemma runStats_noPanic (ss : List StatSlotM) (ret : TokenResult) :
    ∀ (i : Nat) (c : EntryContext),
    (∀ s ∈ ss, s.PassedNoPanic ∧ s.BlockedNoPanic) →
    ∃ c2, runStats ss i ret c =
      ((List.range ss.length).map
        (fun k => if ret.IsBlocked then ChainEvent.onBlocked (i + k) else ChainEvent.onPassed (i + k)),
       SlotOutcome.ok c2) := by
  induction ss with
  | nil => intro i c _; exact ⟨c, rfl⟩
  | cons s rest ih =>
    intro i c h
    have hs := h s (List.mem_cons_self s rest)
    have hrest : ∀ t ∈ rest, t.PassedNoPanic ∧ t.BlockedNoPanic :=
      fun t ht => h t (List.mem_cons_of_mem s ht)
    cases hb : ret.IsBlocked
    · obtain ⟨c2, hc2⟩ := hs.1 c
      obtain ⟨c3, hc3⟩ := ih (i + 1) c2 hrest
      refine ⟨c3, ?_⟩
      rw [runStats, if_pos (by rw [hb]; rfl), hc2]
      simp only [hc3, List.length_cons]
      simp [hb, map_range_succ_shift ChainEvent.onPassed rest.length i]
    · obtain ⟨c2, hc2⟩ := hs.2 c ret.blockErr
      obtain ⟨c3, hc3⟩ := ih (i + 1) c2 hrest
      refine ⟨c3, ?_⟩
      rw [runStats, if_neg (by rw [hb]; simp), hc2]
      simp only [hc3, List.length_cons]
      simp [hb, map_range_succ_shift ChainEvent.onBlocked rest.length i]

lemma runCompleteds_noPanic (ss : List StatSlotM) :
    ∀ (i : Nat) (c : EntryContext),
    (∀ s ∈ ss, s.CompletedNoPanic) →
    ∃ c2, runCompleteds ss i c =
      ((List.range ss.length).map (fun k => ChainEvent.onCompleted (i + k)),
       SlotOutcome.ok c2) := by
  induction ss with
  | nil => intro i c _; exact ⟨c, rfl⟩
  | cons s rest ih =>
    intro i c h
    obtain ⟨c2, hc2⟩ := h s (List.mem_cons_self s rest) c
    obtain ⟨c3, hc3⟩ := ih (i + 1) c2 (fun t ht => h t (List.mem_cons_of_mem s ht))
    refine ⟨c3, ?_⟩
    rw [runCompleteds, hc2]
    simp only [hc3, List.length_cons]
    simp [map_range_succ_shift ChainEvent.onCompleted rest.length i]

/-- Claim C4: once the rule-check phase of SlotChain.Entry finishes
(prepare and rule-check slots return without panic) and the stat slots
themselves return normally, every registered stat slot is invoked
exactly once, with OnEntryBlocked when the final rule-check result is
blocked and OnEntryPassed otherwise (the trace lists exactly one event
per slot position); and on exit of an entry (a context holding a
SentinelEntry), OnCompleted runs on every stat slot when the context is
not blocked while a blocked context runs no OnCompleted at all. -/
theorem stat_slots_invocation (sc : SlotChain) (ctx c1 c2 : EntryContext)
    (t1 t2 : List ChainEvent) (rr : Option TokenResult)
    (hnp : ∀ s ∈ sc.stats, s.PassedNoPanic ∧ s.BlockedNoPanic ∧ s.CompletedNoPanic)
    (h1 : runPrepares sc.statPres 0 ctx = (t1, SlotOutcome.ok c1))
    (h2 : runRuleChecks sc.ruleChecks 0 c1 = (t2, SlotOutcome.ok (rr, c2))) :
    (∃ c4, SlotChain.Entry sc ctx =
      (t1 ++ t2 ++ (List.range sc.stats.length).map
        (fun k => if (finalTokenResult rr c2).IsBlocked then ChainEvent.onBlocked k
          else ChainEvent.onPassed k),
       some (finalTokenResult rr c2), c4)) ∧
    (∀ cx : EntryContext, cx.hasEntry = true →
      (cx.IsBlocked = true → SlotChain.exit sc cx = ([], SlotOutcome.ok cx)) ∧
      (cx.IsBlocked = false → ∃ c5, SlotChain.exit sc cx =
        ((List.range sc.stats.length).map (fun k => ChainEvent.onCompleted k),
         SlotOutcome.ok c5))) := by
  constructor
  · obtain ⟨c4, hc4⟩ := runStats_noPanic sc.stats (finalTokenResult rr c2) 0
      { c2 with ruleCheckResult := finalTokenResult rr c2 }
      (fun s hs => ⟨(hnp s hs).1, (hnp s hs).2.1⟩)
    refine ⟨c4, ?_⟩
    unfold SlotChain.Entry entryBody
    simp only [h1, h2, hc4]
    simp
  · intro cx hx
    constructor
    · intro hbx
      unfold SlotChain.exit
      rw [if_neg (by simp [hx]), if_pos (by simp [hbx])]
    · intro hbx
      obtain ⟨c5, hc5⟩ := runCompleteds_noPanic sc.stats 0 cx
        (fun s hs => (hnp s hs).2.2)
      refine ⟨c5, ?_⟩
      unfold SlotChain.exit
      rw [if_neg (by simp [hx]), if_neg (by simp [hbx]), hc5]
      simp

/-- A stat slot that performs its accounting without panicking (the
identity on the modelled context). -/
def okStatSlot : StatSlotM :=
  ⟨fun c => SlotOutcome.ok c, fun c _ => SlotOutcome.ok c, fun c => SlotOutcome.ok c⟩

/-- A stat slot whose OnEntryPassed panics. -/
def panicStatSlot : StatSlotM :=
  ⟨fun c => SlotOutcome.panicked "slot panic" c,
   fun c _ => SlotOutcome.ok c, fun c => SlotOutcome.ok c⟩

/-- A context fresh from the pool: pass result, no error, an entry
attached. -/
def ctxPass : EntryContext := ⟨NewTokenResultPass, none, 0, true⟩

/-- A context carrying a blocked rule-check result. -/
def ctxBlocked : EntryContext :=
  ⟨⟨ResultStatus.Blocked, some ⟨"flow"⟩, 0⟩, none, 0, true⟩

/-- Witness for stat_slots_invocation on a chain of two benign stat
slots with no prepare and no rule-check slots. -/
theorem stat_slots_invocation_witness :
    (∃ c4, SlotChain.Entry ⟨[], [], [okStatSlot, okStatSlot]⟩ ctxPass =
      ([ChainEvent.onPassed 0, ChainEvent.onPassed 1], some NewTokenResultPass, c4)) ∧
    (SlotChain.exit ⟨[], [], [okStatSlot, okStatSlot]⟩ ctxBlocked =
      ([], SlotOutcome.ok ctxBlocked)) ∧
    (∃ c5, SlotChain.exit ⟨[], [], [okStatSlot, okStatSlot]⟩ ctxPass =
      ([ChainEvent.onCompleted 0, ChainEvent.onCompleted 1], SlotOutcome.ok c5)) := by
  have hnp : ∀ s ∈ [okStatSlot, okStatSlot],
      s.PassedNoPanic ∧ s.BlockedNoPanic ∧ s.CompletedNoPanic := by
    intro s hs
    have hs2 : s = okStatSlot ∨ s = okStatSlot := by simpa using hs
    have heq : s = okStatSlot := hs2.elim id id
    subst heq
    exact ⟨fun c => ⟨c, rfl⟩, fun c be => ⟨c, rfl⟩, fun c => ⟨c, rfl⟩⟩
  have h := stat_slots_invocation ⟨[], [], [okStatSlot, okStatSlot]⟩ ctxPass ctxPass ctxPass
    [] [] none hnp rfl rfl
  refine ⟨h.1, (h.2 ctxBlocked rfl).1 rfl, (h.2 ctxPass rfl).2 rfl⟩

/-- Claim C2 counterexample: a chain whose stat phase holds a panicking
stat slot followed by a benign one.  The trace of Entry records only
the first stat slot: the panic unwinds to the recover at the Entry
boundary, so the later stat slot never runs, contradicting the claim
that a panicking stat slot does not prevent a later stat slot in the
same chain from running.  (The result is nil, so the entry is still not
blocked, and the error is recorded on the context.) -/
theorem stat_panic_skips_later_stats_cex :
    (SlotChain.Entry ⟨[], [], [panicStatSlot, okStatSlot]⟩ ctxPass).1 =
      [ChainEvent.onPassed 0] ∧
    ChainEvent.onPassed 1 ∉ (SlotChain.Entry ⟨[], [], [panicStatSlot, okStatSlot]⟩ ctxPass).1 ∧
    (SlotChain.Entry ⟨[], [], [panicStatSlot, okStatSlot]⟩ ctxPass).2.1 = none ∧
    (SlotChain.Entry ⟨[], [], [panicStatSlot, okStatSlot]⟩ ctxPass).2.2.err = some "slot panic" :=
  ⟨rfl, by decide, rfl, rfl⟩

/-- Claim C2 as amended: a panic in any slot is recovered at the chain
boundary, recorded on the context as an error, and SlotChain.Entry
returns the nil TokenResult, which is not a blocked result; however,
slots after the panicking slot do not run: in a stat phase
pre ++ s :: post where s panics in OnEntryPassed and the slots of pre
do not panic, the trace stops at s and no slot of post is invoked. -/
theorem slot_panic_fail_open :
    (∀ (sc : SlotChain) (ctx : EntryContext) (t : List ChainEvent) (m : String)
       (cp : EntryContext),
       entryBody sc ctx = (t, SlotOutcome.panicked m cp) →
       SlotChain.Entry sc ctx = (t, none, cp.SetError m) ∧
       (cp.SetError m).err = some m) ∧
    (∀ (pre : List StatSlotM) (s : StatSlotM) (post : List StatSlotM)
       (ctx : EntryContext) (m : String),
       (∀ sl ∈ pre, sl.PassedNoPanic) →
       (∀ c, s.onEntryPassedFn c = SlotOutcome.panicked m c) →
       ∃ cp, SlotChain.Entry ⟨[], [], pre ++ s :: post⟩ ctx =
         ((List.range (pre.length + 1)).map (fun k => ChainEvent.onPassed k), none, cp) ∧
         cp.err = some m) := by
  constructor
  · intro sc ctx t m cp h
    unfold SlotChain.Entry
    rw [h]
    exact ⟨rfl, rfl⟩
  · intro pre s post ctx m hpre hs
    have hnotb : ∀ c2 : EntryContext, (c2.ruleCheckResult.ResetToPass).IsBlocked = false := by
      intro c2
      rfl
    -- the stat loop runs pre, then s panics
    have hloop : ∀ (l : List StatSlotM), (∀ sl ∈ l, sl.PassedNoPanic) →
        ∀ (i : Nat) (c : EntryContext) (ret : TokenResult), ret.IsBlocked = false →
        ∃ cp, runStats (l ++ s :: post) i ret c =
          ((List.range (l.length + 1)).map (fun k => ChainEvent.onPassed (i + k)),
           SlotOutcome.panicked m cp) := by
      intro l
      induction l with
      | nil =>
        intro _ i c ret hret
        refine ⟨c, ?_⟩
        rw [List.nil_append, runStats, if_pos (by rw [hret]; rfl), hs c]
        rfl
      | cons sl rest ih =>
        intro hl i c ret hret
        obtain ⟨c2, hc2⟩ := hl sl (List.mem_cons_self sl rest) c
        obtain ⟨cp, hcp⟩ := ih (fun t ht => hl t (List.mem_cons_of_mem sl ht)) (i + 1) c2 ret hret
        refine ⟨cp, ?_⟩
        rw [List.cons_append, runStats, if_pos (by rw [hret]; rfl), hc2]
        simp only [hcp, List.length_cons]
        simp [map_range_succ_shift ChainEvent.onPassed (rest.length + 1) i]
    obtain ⟨cp, hcp⟩ := hloop pre hpre 0
      { ctx with ruleCheckResult := ctx.ruleCheckResult.ResetToPass }
      (ctx.ruleCheckResult.ResetToPass) (hnotb ctx)
    refine ⟨cp.SetError m, ?_, rfl⟩
    unfold SlotChain.Entry entryBody
    simp only [runPrepares, runRuleChecks, finalTokenResult, hcp]
    simp

/-- Witness for slot_panic_fail_open: a one-slot panicking chain for
the recover part, and a panicking slot behind one benign slot for the
skipping part. -/
theorem slot_panic_fail_open_witness :
    (SlotChain.Entry ⟨[], [], [panicStatSlot]⟩ ctxPass =
      ([ChainEvent.onPassed 0], none, ctxPass.SetError "slot panic") ∧
     (ctxPass.SetError "slot panic").err = some "slot panic") ∧
    (∃ cp, SlotChain.Entry ⟨[], [], [okStatSlot, panicStatSlot]⟩ ctxPass =
      ([ChainEvent.onPassed 0, ChainEvent.onPassed 1], none, cp) ∧
      cp.err = some "slot panic") := by
  constructor
  · exact slot_panic_fail_open.1 ⟨[], [], [panicStatSlot]⟩ ctxPass
      [ChainEvent.onPassed 0] "slot panic" ctxPass rfl
  · have h := slot_panic_fail_open.2 [okStatSlot] panicStatSlot [] ctxPass "slot panic"
      (by
        intro sl hsl
        have hsl2 : sl = okStatSlot := by simpa using hsl
        subst hsl2
        exact fun c => ⟨c, rfl⟩)
      (fun c => rfl)
    exact h

/-! ## Flow rule-check slot (core/flow/slot.go, package flow section)

The statistics node a controller checks against is abstracted by an
identity (base.StatNode is an interface); stat.GetResourceNode is the
environment function env from resource names to nodes.  A
TrafficShapingController couples its rule with its PerformChecking
behaviour (an arbitrary function, since the token calculators and
checkers live outside the checked sources).  Slot.Check effects -- the
flow_wait_total counter additions and the util.Sleep calls -- and the
canPassCheck invocations are recorded in a CheckLog. -/

inductive RelationStrategy
  | Direct
  | AssociatedResource
deriving DecidableEq, Repr

/-- The fields of flow.Rule that Slot.Check reads. -/
structure FlowRule where
  relationStrategy : RelationStrategy
  refResource : String
deriving DecidableEq, Repr

/-- Identity of a base.StatNode. -/
abbrev StatNodeId := String

structure TrafficShapingController where
  rule : FlowRule
  performChecking : StatNodeId → Nat → Int → Option TokenResult

/-- selectNodeByRelStrategy: the refResource node for
AssociatedResource, the passed node otherwise. -/
def selectNodeByRelStrategy (env : String → Option StatNodeId) (rule : FlowRule)
    (node : Option StatNodeId) : Option StatNodeId :=
  if rule.relationStrategy = RelationStrategy.AssociatedResource then env rule.refResource
  else node

/-- checkInLocal: a nil selected node logs once and passes; otherwise
the controller performs its checking against the selected node. -/
def checkInLocal (env : String → Option StatNodeId) (tc : TrafficShapingController)
    (resStat : Option StatNodeId) (batchCount : Nat) (flag : Int) : Option TokenResult :=
  match selectNodeByRelStrategy env tc.rule resStat with
  | none => some NewTokenResultPass
  | some actual => tc.performChecking actual batchCount flag

def canPassCheckWithFlag (env : String → Option StatNodeId) (tc : TrafficShapingController)
    (node : Option StatNodeId) (batchCount : Nat) (flag : Int) : Option TokenResult :=
  checkInLocal env tc node batchCount flag

def canPassCheck (env : String → Option StatNodeId) (tc : TrafficShapingController)
    (node : Option StatNodeId) (batchCount : Nat) : Option TokenResult :=
  canPassCheckWithFlag env tc node batchCount 0

/-- Effects of one Slot.Check run: positions at which canPassCheck ran,
additions (amount, resource) to the flow_wait_total counter, and
util.Sleep durations in nanoseconds. -/
structure CheckLog where
  evaluated : List Nat
  flowWaitAdds : List (Nat × String)
  sleeps : List Nat
deriving DecidableEq, Repr

/-- The loop body of Slot.Check over the controller list: a nil
controller logs a warning and is skipped; a nil check result means pass
and continues; a blocked result returns immediately; a should-wait
result with positive nanosToWait adds batchCount to flow_wait_total for
the resource, sleeps, and continues; anything else continues. -/
def flowCheckLoop (env : String → Option StatNodeId) (res : String)
    (node : Option StatNodeId) (batchCount : Nat) :
    List (Option TrafficShapingController) → Nat → Option TokenResult × CheckLog
  | [], _ => (none, ⟨[], [], []⟩)
  | none :: rest, i => flowCheckLoop env res node batchCount rest (i + 1)
  | some tc :: rest, i =>
    match canPassCheck env tc node batchCount with
    | none =>
      let r := flowCheckLoop env res node batchCount rest (i + 1)
      (r.1, { r.2 with evaluated := i :: r.2.evaluated })
    | some rr =>
      if rr.status = ResultStatus.Blocked then (some rr, ⟨[i], [], []⟩)
      else if rr.status = ResultStatus.ShouldWait then
        if 0 < rr.nanosToWait then
          let r := flowCheckLoop env res node batchCount rest (i + 1)
          (r.1, ⟨i :: r.2.evaluated, (batchCount, res) :: r.2.flowWaitAdds,
            rr.nanosToWait :: r.2.sleeps⟩)
        else
          let r := flowCheckLoop env res node batchCount rest (i + 1)
          (r.1, { r.2 with evaluated := i :: r.2.evaluated })
      else
        let r := flowCheckLoop env res node batchCount rest (i + 1)
        (r.1, { r.2 with evaluated := i :: r.2.evaluated })

/-- The part of the EntryContext flow.Slot.Check reads. -/
structure FlowCtx where
  resName : String
  statNode : Option StatNodeId
  batchCount : Nat
  ruleCheckResult : TokenResult

/-- flow.Slot.Check: run the loop over the controllers registered for
the resource (the registry is the tcMap environment); the first blocked
result is returned, otherwise the RuleCheckResult carried by the
context. -/
def FlowSlotCheck (env : String → Option StatNodeId)
    (tcMap : String → List (Option TrafficShapingController)) (ctx : FlowCtx) :
    TokenResult × CheckLog :=
  match flowCheckLoop env ctx.resName ctx.statNode ctx.batchCount (tcMap ctx.resName) 0 with
  | (some r, log) => (r, log)
  | (none, log) => (ctx.ruleCheckResult, log)

/-- A controller position whose check never yields a blocked result
(a nil controller, or one whose canPassCheck result is nil or has a
status other than Blocked). -/
def StepNotBlocked (env : String → Option StatNodeId) (node : Option StatNodeId)
    (batchCount : Nat) : Option TrafficShapingController → Prop
  | none => True
  | some tc => ∀ r, canPassCheck env tc node batchCount = some r →
      r.status ≠ ResultStatus.Blocked

lemma flowCheckLoop_append_notBlocked (env : String → Option StatNodeId) (res : String)
    (node : Option StatNodeId) (batchCount : Nat)
    (l : List (Option TrafficShapingController)) :
    ∀ (pre : List (Option TrafficShapingController)) (i : Nat),
    (∀ t ∈ pre, StepNotBlocked env node batchCount t) →
    (flowCheckLoop env res node batchCount (pre ++ l) i).1 =
      (flowCheckLoop env res node batchCount l (i + pre.length)).1 ∧
    ∀ j ∈ (flowCheckLoop env res node batchCount (pre ++ l) i).2.evaluated,
      j < i + pre.length ∨
        j ∈ (flowCheckLoop env res node batchCount l (i + pre.length)).2.evaluated := by
  intro pre
  induction pre with
  | nil =>
    intro i _
    constructor
    · rfl
    · intro j hj
      exact Or.inr hj
  | cons t rest ih =>
    intro i hpre
    have ht := hpre t (List.mem_cons_self t rest)
    have hrest : ∀ u ∈ rest, StepNotBlocked env node batchCount u :=
      fun u hu => hpre u (List.mem_cons_of_mem t hu)
    have hlen : i + 1 + rest.length = i + (rest.length + 1) := by omega
    rcases t with _ | tc
    · rw [List.cons_append, flowCheckLoop]
      have h2 := ih (i + 1) hrest
      rw [hlen] at h2
      refine ⟨h2.1, fun j hj => ?_⟩
      rcases h2.2 j hj with hlt | hmem
      · exact Or.inl (by simpa [List.length_cons] using Nat.lt_of_lt_of_le hlt (by omega))
      · exact Or.inr (by simpa [List.length_cons] using hmem)
    · rw [List.cons_append, flowCheckLoop]
      rcases hcan : canPassCheck env tc node batchCount with _ | rr
      · have h2 := ih (i + 1) hrest
        rw [hlen] at h2
        simp only [List.length_cons]
        refine ⟨h2.1, fun j hj => ?_⟩
        simp only [List.mem_cons] at hj
        rcases hj with hj | hj
        · exact Or.inl (by omega)
        · rcases h2.2 j hj with hlt | hmem
          · exact Or.inl (by omega)
          · exact Or.inr hmem
      · have hnb : rr.status ≠ ResultStatus.Blocked := ht rr hcan
        simp only []
        rw [if_neg hnb]
        by_cases hw : rr.status = ResultStatus.ShouldWait
        · rw [if_pos hw]
          by_cases hpos : 0 < rr.nanosToWait
          · rw [if_pos hpos]
            have h2 := ih (i + 1) hrest
            rw [hlen] at h2
            simp only [List.length_cons]
            refine ⟨h2.1, fun j hj => ?_⟩
            simp only [List.mem_cons] at hj
            rcases hj with hj | hj
            · exact Or.inl (by omega)
            · rcases h2.2 j hj with hlt | hmem
              · exact Or.inl (by omega)
              · exact Or.inr hmem
          · rw [if_neg hpos]
            have h2 := ih (i + 1) hrest
            rw [hlen] at h2
            simp only [List.length_cons]
            refine ⟨h2.1, fun j hj => ?_⟩
            simp only [List.mem_cons] at hj
            rcases hj with hj | hj
            · exact Or.inl (by omega)
            · rcases h2.2 j hj with hlt | hmem
              · exact Or.inl (by omega)
              · exact Or.inr hmem
        · rw [if_neg hw]
          have h2 := ih (i + 1) hrest
          rw [hlen] at h2
          simp only [List.length_cons]
          refine ⟨h2.1, fun j hj => ?_⟩
          simp only [List.mem_cons] at hj
          rcases hj with hj | hj
          · exact Or.inl (by omega)
          · rcases h2.2 j hj with hlt | hmem
            · exact Or.inl (by omega)
            · exact Or.inr hmem

/-- Claim C3: behaviour of the flow rule-check slot.  Controllers are
evaluated in order and the first blocked result returns immediately,
with no controller past the blocking one evaluated; a should-wait
result with positive nanosToWait adds batchCount to flow_wait_total for
the resource, sleeps nanosToWait, and continues with the remaining
controllers; the node checked is the refResource node for an
AssociatedResource rule and the context node otherwise, and a nil
selected node yields a pass result. -/
theorem flow_check_slot_behavior (env : String → Option StatNodeId) (res : String)
    (node : Option StatNodeId) (batchCount : Nat) :
    (∀ (pre post : List (Option TrafficShapingController))
       (tc : TrafficShapingController) (r : TokenResult),
       (∀ t ∈ pre, StepNotBlocked env node batchCount t) →
       canPassCheck env tc node batchCount = some r →
       r.status = ResultStatus.Blocked →
       (flowCheckLoop env res node batchCount (pre ++ some tc :: post) 0).1 = some r ∧
       ∀ j ∈ (flowCheckLoop env res node batchCount (pre ++ some tc :: post) 0).2.evaluated,
         j ≤ pre.length) ∧
    (∀ (post : List (Option TrafficShapingController))
       (tc : TrafficShapingController) (r : TokenResult) (i : Nat),
       canPassCheck env tc node batchCount = some r →
       r.status = ResultStatus.ShouldWait → 0 < r.nanosToWait →
       flowCheckLoop env res node batchCount (some tc :: post) i =
         ((flowCheckLoop env res node batchCount post (i + 1)).1,
          ⟨i :: (flowCheckLoop env res node batchCount post (i + 1)).2.evaluated,
           (batchCount, res) :: (flowCheckLoop env res node batchCount post (i + 1)).2.flowWaitAdds,
           r.nanosToWait :: (flowCheckLoop env res node batchCount post (i + 1)).2.sleeps⟩)) ∧
    (∀ (rule : FlowRule) (n : Option StatNodeId),
       selectNodeByRelStrategy env rule n =
         if rule.relationStrategy = RelationStrategy.AssociatedResource then env rule.refResource
         else n) ∧
    (∀ tc : TrafficShapingController,
       selectNodeByRelStrategy env tc.rule node = none →
       canPassCheck env tc node batchCount = some NewTokenResultPass) ∧
    (∀ (tc : TrafficShapingController) (actual : StatNodeId),
       selectNodeByRelStrategy env tc.rule node = some actual →
       canPassCheck env tc node batchCount = tc.performChecking actual batchCount 0) := by
  refine ⟨?_, ?_, ?_, ?_, ?_⟩
  · intro pre post tc r hpre hcan hblk
    have h := flowCheckLoop_append_notBlocked env res node batchCount
      (some tc :: post) pre 0 hpre
    have hhead : flowCheckLoop env res node batchCount (some tc :: post) (0 + pre.length) =
        (some r, ⟨[0 + pre.length], [], []⟩) := by
      rw [flowCheckLoop, hcan]
      simp only []
      rw [if_pos hblk]
    constructor
    · rw [h.1, hhead]
    · intro j hj
      rcases h.2 j hj with hlt | hmem
      · omega
      · rw [hhead] at hmem
        simp at hmem
        omega
  · intro post tc r i hcan hw hpos
    rw [flowCheckLoop, hcan]
    simp only []
    rw [if_neg (by rw [hw]; intro hcon; cases hcon), if_pos hw, if_pos hpos]
  · intro rule n
    rfl
  · intro tc hnil
    unfold canPassCheck canPassCheckWithFlag checkInLocal
    rw [hnil]
  · intro tc actual hsel
    unfold canPassCheck canPassCheckWithFlag checkInLocal
    rw [hsel]

/-- A controller that always asks for a 5 ns wait. -/
def tcWaitW : TrafficShapingController :=
  ⟨⟨RelationStrategy.Direct, ""⟩,
   fun _ _ _ => some ⟨ResultStatus.ShouldWait, none, 5⟩⟩

/-- A controller that always blocks. -/
def tcBlockW : TrafficShapingController :=
  ⟨⟨RelationStrategy.Direct, ""⟩,
   fun _ _ _ => some ⟨ResultStatus.Blocked, some ⟨"flow"⟩, 0⟩⟩

/-- A controller bound to a missing associated resource. -/
def tcNilNodeW : TrafficShapingController :=
  ⟨⟨RelationStrategy.AssociatedResource, "missing"⟩,
   fun _ _ _ => some ⟨ResultStatus.Blocked, some ⟨"flow"⟩, 0⟩⟩

/-- The environment for the flow witnesses: only resource B has a node. -/
def envW : String → Option StatNodeId :=
  fun s => if s = "B" then some "nodeB" else none

/-- Witness for flow_check_slot_behavior: a blocking controller at the
head short-circuits; a waiting controller records the counter addition
and the sleep; node selection and the nil-node pass at concrete
controllers. -/
theorem flow_check_slot_behavior_witness :
    ((flowCheckLoop envW "A" (some "nodeA") 2 [some tcBlockW, some tcWaitW] 0).1 =
       some ⟨ResultStatus.Blocked, some ⟨"flow"⟩, 0⟩ ∧
     ∀ j ∈ (flowCheckLoop envW "A" (some "nodeA") 2 [some tcBlockW, some tcWaitW] 0).2.evaluated,
       j ≤ 0) ∧
    (flowCheckLoop envW "A" (some "nodeA") 2 [some tcWaitW] 7 =
      ((flowCheckLoop envW "A" (some "nodeA") 2 [] 8).1,
       ⟨7 :: (flowCheckLoop envW "A" (some "nodeA") 2 [] 8).2.evaluated,
        (2, "A") :: (flowCheckLoop envW "A" (some "nodeA") 2 [] 8).2.flowWaitAdds,
        5 :: (flowCheckLoop envW "A" (some "nodeA") 2 [] 8).2.sleeps⟩)) ∧
    (selectNodeByRelStrategy envW tcNilNodeW.rule (some "nodeA") =
      if tcNilNodeW.rule.relationStrategy = RelationStrategy.AssociatedResource then
        envW tcNilNodeW.rule.refResource
      else some "nodeA") ∧
    (canPassCheck envW tcNilNodeW (some "nodeA") 2 = some NewTokenResultPass) ∧
    (canPassCheck envW tcBlockW (some "nodeA") 2 =
      tcBlockW.performChecking "nodeA" 2 0) := by
  have h := flow_check_slot_behavior envW "A" (some "nodeA") 2
  refine ⟨?_, ?_, ?_, ?_, ?_⟩
  · exact h.1 [] [some tcWaitW] tcBlockW ⟨ResultStatus.Blocked, some ⟨"flow"⟩, 0⟩
      (by intro t ht; cases ht) rfl rfl
  · exact h.2.1 [] tcWaitW ⟨ResultStatus.ShouldWait, none, 5⟩ 7 rfl rfl (by decide)
  · exact h.2.2.1 tcNilNodeW.rule (some "nodeA")
  · exact h.2.2.2.1 tcNilNodeW rfl
  · exact h.2.2.2.2 tcBlockW "nodeA" rfl

/-! ## Metric aggregator (core/log/metric/aggregator.go)

The aggregator state is the package-level lastFetchTime (int64,
initially -1) and the bounded writeChan.  A resource node is modelled
by its name, classification and the metric items its rings currently
hold; items are data, the tick is a pure function of the node contents,
the clock value and lastFetchTime. -/

structure MetricItem where
  timestamp : Nat
  passQps : Nat
  blockQps : Nat
  completeQps : Nat
  errorQps : Nat
  avgRt : Nat
  concurrency : Nat
  resource : String
  classification : Int
deriving DecidableEq, Repr

/-- isActiveMetricItem from aggregator.go. -/
def isActiveMetricItem (item : MetricItem) : Bool :=
  decide (0 < item.passQps) || decide (0 < item.blockQps) ||
  decide (0 < item.completeQps) || decide (0 < item.errorQps) ||
  decide (0 < item.avgRt) || decide (0 < item.concurrency)

/-- isItemTimestampInTime: lastFetchTime <= ts < currentSecStart (the
source reads the package-level lastFetchTime; here it is a
parameter). -/
def isItemTimestampInTime (ts : Nat) (lastFetchTime : Int) (currentSecStart : Nat) : Bool :=
  decide (lastFetchTime ≤ (ts : Int)) && decide (ts < currentSecStart)

structure NodeModel where
  name : String
  classification : Int
  items : List MetricItem
deriving DecidableEq, Repr

/-- Modelled from the spec: MetricsOnCondition of base.MetricItemRetriever
(package core/stat, outside the sources at hand) returns the per-bucket
metric items whose start timestamp satisfies the predicate. -/
def MetricsOnCondition (node : NodeModel) (p : Nat → Bool) : List MetricItem :=
  node.items.filter (fun it => p it.timestamp)

/-- Assignment m[k] = v on a Go map modelled as an association list:
replace the value at an existing key, append a new key otherwise. -/
def mapPut (m : List (Nat × MetricItem)) (k : Nat) (v : MetricItem) :
    List (Nat × MetricItem) :=
  if m.any (fun p => p.1 == k) then m.map (fun p => if p.1 == k then (k, v) else p)
  else m ++ [(k, v)]

/-- currentMetricItems: filter by timestamp window, drop inactive
items, key the rest by timestamp. -/
def currentMetricItems (node : NodeModel) (lastFetchTime : Int) (currentTime : Nat) :
    List (Nat × MetricItem) :=
  (MetricsOnCondition node (fun ts => isItemTimestampInTime ts lastFetchTime currentTime)).foldl
    (fun m item => if isActiveMetricItem item then mapPut m item.timestamp item else m) []

/-- The map published on the write channel: timestamp to items. -/
abbrev MetricTimeMap := List (Nat × List MetricItem)

/-- Append one item under key t in the time map (mm[t] append). -/
def timeMapAdd (mm : MetricTimeMap) (t : Nat) (item : MetricItem) : MetricTimeMap :=
  if mm.any (fun p => p.1 == t) then
    mm.map (fun p => if p.1 == t then (p.1, p.2 ++ [item]) else p)
  else mm ++ [(t, [item])]

/-- aggregateIntoMap: stamp each item with the node identity and merge
into the time map. -/
def aggregateIntoMap (mm : MetricTimeMap) (metrics : List (Nat × MetricItem))
    (node : NodeModel) : MetricTimeMap :=
  metrics.foldl (fun acc p =>
    timeMapAdd acc p.1
      { p.2 with resource := node.name, classification := node.classification }) mm

/-- The time map doAggregate builds: every resource node, then the
inbound entrance node. -/
def builtMaps (cns : List NodeModel) (inboundNode : NodeModel) (lastFetchTime : Int)
    (curTime : Nat) : MetricTimeMap :=
  aggregateIntoMap
    (cns.foldl
      (fun mm node => aggregateIntoMap mm (currentMetricItems node lastFetchTime curTime) node)
      [])
    (currentMetricItems inboundNode lastFetchTime curTime) inboundNode

/-- doAggregate as a pure function: given the clock value now and
lastFetchTime, return the updated lastFetchTime and the batch handed to
the write channel (none when the tick skips or the map is empty). -/
def doAggregate (cns : List NodeModel) (inboundNode : NodeModel) (now : Nat)
    (lastFetchTime : Int) : Int × Option MetricTimeMap :=
  if ((now - now % 1000 : Nat) : Int) ≤ lastFetchTime then (lastFetchTime, none)
  else
    (((now - now % 1000 : Nat) : Int),
     if 0 < (builtMaps cns inboundNode lastFetchTime (now - now % 1000)).length then
       some (builtMaps cns inboundNode lastFetchTime (now - now % 1000))
     else none)

/-- A sequence of aggregation ticks at the given clock values, threading
lastFetchTime and collecting the published batches in order. -/
def runAggregateTicks (cns : List NodeModel) (inboundNode : NodeModel) :
    List Nat → Int → Int × List MetricTimeMap
  | [], lastFetchTime => (lastFetchTime, [])
  | now :: rest, lastFetchTime =>
    ((runAggregateTicks cns inboundNode rest (doAggregate cns inboundNode now lastFetchTime).1).1,
     match (doAggregate cns inboundNode now lastFetchTime).2 with
     | some b =>
       b :: (runAggregateTicks cns inboundNode rest
         (doAggregate cns inboundNode now lastFetchTime).1).2
     | none =>
       (runAggregateTicks cns inboundNode rest
         (doAggregate cns inboundNode now lastFetchTime).1).2)

/-! Helper lemmas about the aggregator. -/

lemma isActive_set_resource (it : MetricItem) (r : String) (cl : Int) :
    isActiveMetricItem { it with resource := r, classification := cl } =
      isActiveMetricItem it := rfl

lemma in_time_bounds (ts : Nat) (L : Int) (cur : Nat)
    (h : isItemTimestampInTime ts L cur = true) : L ≤ (ts : Int) ∧ ts < cur := by
  unfold isItemTimestampInTime at h
  simp only [Bool.and_eq_true, decide_eq_true_eq] at h
  exact h

/-- All pairs of a keyed item list lie in the window and are active. -/
def GoodPairs (L : Int) (cur : Nat) (m : List (Nat × MetricItem)) : Prop :=
  ∀ p ∈ m, (L ≤ (p.1 : Int) ∧ p.1 < cur) ∧ isActiveMetricItem p.2 = true

/-- All entries of a time map lie in the window and hold only active
items. -/
def MapGood (L : Int) (cur : Nat) (mm : MetricTimeMap) : Prop :=
  ∀ p ∈ mm, (L ≤ (p.1 : Int) ∧ p.1 < cur) ∧ ∀ it ∈ p.2, isActiveMetricItem it = true

lemma mapPut_good (L : Int) (cur : Nat) (m : List (Nat × MetricItem)) (k : Nat)
    (v : MetricItem) (hm : GoodPairs L cur m) (hk : L ≤ (k : Int) ∧ k < cur)
    (hv : isActiveMetricItem v = true) : GoodPairs L cur (mapPut m k v) := by
  intro p hp
  unfold mapPut at hp
  split at hp
  · rw [List.mem_map] at hp
    obtain ⟨q, hq, hpq⟩ := hp
    by_cases hqk : (q.1 == k) = true
    · rw [if_pos hqk] at hpq
      rw [← hpq]
      exact ⟨hk, hv⟩
    · rw [if_neg hqk] at hpq
      rw [← hpq]
      exact hm q hq
  · rw [List.mem_append] at hp
    rcases hp with hp | hp
    · exact hm p hp
    · simp only [List.mem_singleton] at hp
      rw [hp]
      exact ⟨hk, hv⟩

lemma currentMetricItems_good (node : NodeModel) (L : Int) (cur : Nat) :
    GoodPairs L cur (currentMetricItems node L cur) := by
  unfold currentMetricItems
  have hfold : ∀ (items : List MetricItem) (m0 : List (Nat × MetricItem)),
      GoodPairs L cur m0 →
      (∀ it ∈ items, isItemTimestampInTime it.timestamp L cur = true) →
      GoodPairs L cur (items.foldl
        (fun m item => if isActiveMetricItem item then mapPut m item.timestamp item else m)
        m0) := by
    intro items
    induction items with
    | nil => intro m0 h _; exact h
    | cons it rest ih =>
      intro m0 h0 hin
      rw [List.foldl_cons]
      apply ih
      · by_cases ha : isActiveMetricItem it = true
        · rw [if_pos ha]
          exact mapPut_good L cur m0 it.timestamp it h0
            (in_time_bounds it.timestamp L cur (hin it (List.mem_cons_self it rest))) ha
        · rw [if_neg ha]
          exact h0
      · intro u hu
        exact hin u (List.mem_cons_of_mem it hu)
  apply hfold
  · intro p hp
    simp at hp
  · intro it hit
    unfold MetricsOnCondition at hit
    exact (List.mem_filter.mp hit).2

lemma timeMapAdd_good (L : Int) (cur : Nat) (mm : MetricTimeMap) (t : Nat)
    (item : MetricItem) (hmm : MapGood L cur mm) (ht : L ≤ (t : Int) ∧ t < cur)
    (hit : isActiveMetricItem item = true) : MapGood L cur (timeMapAdd mm t item) := by
  intro p hp
  unfold timeMapAdd at hp
  split at hp
  · rw [List.mem_map] at hp
    obtain ⟨q, hq, hpq⟩ := hp
    by_cases hqt : (q.1 == t) = true
    · rw [if_pos hqt] at hpq
      rw [← hpq]
      refine ⟨(hmm q hq).1, ?_⟩
      intro u hu
      rw [List.mem_append] at hu
      rcases hu with hu | hu
      · exact (hmm q hq).2 u hu
      · simp only [List.mem_singleton] at hu
        rw [hu]
        exact hit
    · rw [if_neg hqt] at hpq
      rw [← hpq]
      exact hmm q hq
  · rw [List.mem_append] at hp
    rcases hp with hp | hp
    · exact hmm p hp
    · simp only [List.mem_singleton] at hp
      rw [hp]
      refine ⟨ht, ?_⟩
      intro u hu
      simp only [List.mem_singleton] at hu
      rw [hu]
      exact hit

lemma aggregateIntoMap_good (L : Int) (cur : Nat) (node : NodeModel) :
    ∀ (metrics : List (Nat × MetricItem)) (mm : MetricTimeMap),
    MapGood L cur mm → GoodPairs L cur metrics →
    MapGood L cur (aggregateIntoMap mm metrics node) := by
  intro metrics
  induction metrics with
  | nil => intro mm hmm _; exact hmm
  | cons p rest ih =>
    intro mm hmm hmet
    have hstep : aggregateIntoMap mm (p :: rest) node =
        aggregateIntoMap
          (timeMapAdd mm p.1
            { p.2 with resource := node.name, classification := node.classification })
          rest node := by
      unfold aggregateIntoMap
      rw [List.foldl_cons]
    rw [hstep]
    apply ih
    · apply timeMapAdd_good L cur mm p.1 _ hmm (hmet p (List.mem_cons_self p rest)).1
      rw [isActive_set_resource]
      exact (hmet p (List.mem_cons_self p rest)).2
    · intro q hq
      exact hmet q (List.mem_cons_of_mem p hq)

lemma builtMaps_good (cns : List NodeModel) (inboundNode : NodeModel) (L : Int)
    (cur : Nat) : MapGood L cur (builtMaps cns inboundNode L cur) := by
  have hfold : ∀ (ns : List NodeModel) (mm : MetricTimeMap), MapGood L cur mm →
      MapGood L cur (ns.foldl
        (fun acc node => aggregateIntoMap acc (currentMetricItems node L cur) node) mm) := by
    intro ns
    induction ns with
    | nil => intro mm h; exact h
    | cons nd rest ih =>
      intro mm hmm
      rw [List.foldl_cons]
      exact ih _ (aggregateIntoMap_good L cur nd (currentMetricItems nd L cur) mm hmm
        (currentMetricItems_good nd L cur))
  unfold builtMaps
  exact aggregateIntoMap_good L cur inboundNode _ _
    (hfold cns [] (by intro p hp; simp at hp))
    (currentMetricItems_good inboundNode L cur)

lemma doAggregate_skip (cns : List NodeModel) (inboundNode : NodeModel) (now : Nat)
    (L : Int) (h : ((now - now % 1000 : Nat) : Int) ≤ L) :
    doAggregate cns inboundNode now L = (L, none) := by
  unfold doAggregate
  rw [if_pos h]

lemma doAggregate_fst_ge (cns : List NodeModel) (inboundNode : NodeModel) (now : Nat)
    (L : Int) : L ≤ (doAggregate cns inboundNode now L).1 := by
  unfold doAggregate
  split
  · exact le_refl L
  · simp only []
    omega

lemma doAggregate_published (cns : List NodeModel) (inboundNode : NodeModel) (now : Nat)
    (L : Int) (b : MetricTimeMap) (h : (doAggregate cns inboundNode now L).2 = some b) :
    ¬ ((now - now % 1000 : Nat) : Int) ≤ L ∧
    (doAggregate cns inboundNode now L).1 = ((now - now % 1000 : Nat) : Int) ∧
    MapGood L (now - now % 1000) b := by
  unfold doAggregate at h ⊢
  by_cases hc : ((now - now % 1000 : Nat) : Int) ≤ L
  · rw [if_pos hc] at h
    simp at h
  · rw [if_neg hc] at h ⊢
    refine ⟨hc, rfl, ?_⟩
    simp only [] at h
    split at h
    · have hb : builtMaps cns inboundNode L (now - now % 1000) = b := by
        simpa using h
      rw [← hb]
      exact builtMaps_good cns inboundNode L (now - now % 1000)
    · simp at h

lemma runTicks_keys_ge (cns : List NodeModel) (inboundNode : NodeModel) :
    ∀ (ticks : List Nat) (L : Int) (b : MetricTimeMap) (p : Nat × List MetricItem),
    b ∈ (runAggregateTicks cns inboundNode ticks L).2 → p ∈ b → L ≤ (p.1 : Int) := by
  intro ticks
  induction ticks with
  | nil =>
    intro L b p hb _
    simp [runAggregateTicks] at hb
  | cons now rest ih =>
    intro L b p hb hp
    rw [runAggregateTicks] at hb
    rcases hd : (doAggregate cns inboundNode now L).2 with _ | b0
    · rw [hd] at hb
      simp only [] at hb
      exact le_trans (doAggregate_fst_ge cns inboundNode now L) (ih _ b p hb hp)
    · rw [hd] at hb
      simp only [List.mem_cons] at hb
      rcases hb with hb | hb
      · rw [hb] at hp
        exact ((doAggregate_published cns inboundNode now L b0 hd).2.2 p hp).1.1
      · exact le_trans (doAggregate_fst_ge cns inboundNode now L) (ih _ b p hb hp)

/-- Claim C6: each aggregation tick skips when curSecStart is at most
lastFetchTime; otherwise it sets lastFetchTime to curSecStart and the
published batch holds only timestamps t with lastFetchTime <= t <
curSecStart, all of whose items are active; consequently, across any
sequence of ticks, items for a given timestamp T are published to the
write channel at most once. -/
theorem aggregator_at_most_once (cns : List NodeModel) (inboundNode : NodeModel) :
    (∀ (now : Nat) (L : Int), ((now - now % 1000 : Nat) : Int) ≤ L →
       doAggregate cns inboundNode now L = (L, none)) ∧
    (∀ (now : Nat) (L : Int), ¬ ((now - now % 1000 : Nat) : Int) ≤ L →
       (doAggregate cns inboundNode now L).1 = ((now - now % 1000 : Nat) : Int)) ∧
    (∀ (now : Nat) (L : Int) (b : MetricTimeMap),
       (doAggregate cns inboundNode now L).2 = some b →
       ∀ p ∈ b, (L ≤ (p.1 : Int) ∧ p.1 < now - now % 1000) ∧
         ∀ it ∈ p.2, isActiveMetricItem it = true) ∧
    (∀ (ticks : List Nat) (L : Int) (T : Nat),
       ((runAggregateTicks cns inboundNode ticks L).2.countP
         (fun b => b.any (fun p => p.1 == T))) ≤ 1) := by
  refine ⟨?_, ?_, ?_, ?_⟩
  · intro now L h
    exact doAggregate_skip cns inboundNode now L h
  · intro now L h
    unfold doAggregate
    rw [if_neg h]
  · intro now L b h
    exact (doAggregate_published cns inboundNode now L b h).2.2
  · intro ticks
    induction ticks with
    | nil =>
      intro L T
      simp [runAggregateTicks]
    | cons now rest ih =>
      intro L T
      rw [runAggregateTicks]
      rcases hd : (doAggregate cns inboundNode now L).2 with _ | b0
      · simp only []
        exact ih _ T
      · simp only [List.countP_cons]
        by_cases hpred : (b0.any (fun p => p.1 == T)) = true
      -- the batch of this tick carries T: no later tick may publish T
        · have hpub := doAggregate_published cns inboundNode now L b0 hd
          rw [List.any_eq_true] at hpred
          obtain ⟨q, hq, hqT⟩ := hpred
          rw [beq_iff_eq] at hqT
          have hTcur : T < now - now % 1000 := by
            have := (hpub.2.2 q hq).1.2
            rw [hqT] at this
            exact this
          have hzero : ((runAggregateTicks cns inboundNode rest
              (doAggregate cns inboundNode now L).1).2.countP
              (fun b => b.any (fun p => p.1 == T))) = 0 := by
            rw [List.countP_eq_zero]
            intro b hb hcon
            rw [List.any_eq_true] at hcon
            obtain ⟨u, hu, huT⟩ := hcon
            rw [beq_iff_eq] at huT
            have hge := runTicks_keys_ge cns inboundNode rest
              (doAggregate cns inboundNode now L).1 b u hb hu
            rw [hpub.2.1, huT] at hge
            omega
          rw [hzero]
          split <;> omega
      -- this batch misses T: at most the later ticks publish it
        · have hp0 : (b0.any (fun p => p.1 == T)) = false :=
            eq_false_of_ne_true hpred
          rw [hp0]
          simpa using ih (doAggregate cns inboundNode now L).1 T

/-- The resource node for the aggregator witnesses: one bucket item at
timestamp 1000 with three passes. -/
def nodeW : NodeModel := ⟨"r", 0, [⟨1000, 3, 0, 0, 0, 0, 0, "r", 0⟩]⟩

/-- The inbound entrance node for the aggregator witnesses: empty. -/
def inbW : NodeModel := ⟨"inbound", 0, []⟩

/-- Witness for aggregator_at_most_once at concrete nodes and ticks. -/
theorem aggregator_at_most_once_witness :
    doAggregate [nodeW] inbW 500 0 = (0, none) ∧
    (doAggregate [nodeW] inbW 2500 0).1 = ((2500 - 2500 % 1000 : Nat) : Int) ∧
    ((0 ≤ ((1000 : Nat) : Int) ∧ (1000 : Nat) < 2500 - 2500 % 1000) ∧
     ∀ it ∈ [(⟨1000, 3, 0, 0, 0, 0, 0, "r", 0⟩ : MetricItem)],
       isActiveMetricItem it = true) ∧
    ((runAggregateTicks [nodeW] inbW [2500, 3500] (-1)).2.countP
      (fun b => b.any (fun p => p.1 == 1000))) ≤ 1 := by
  have h := aggregator_at_most_once [nodeW] inbW
  refine ⟨h.1 500 0 (by decide), h.2.1 2500 0 (by decide), ?_, h.2.2.2 [2500, 3500] (-1) 1000⟩
  exact h.2.2.1 2500 0 [(1000, [⟨1000, 3, 0, 0, 0, 0, 0, "r", 0⟩])] rfl
    (1000, [⟨1000, 3, 0, 0, 0, 0, 0, "r", 0⟩]) (by simp)

/-- Capacity of the write channel (logFlushQueueSize). -/
def logFlushQueueSize : Nat := 60

/-- One aggregation tick together with the send on writeChan. -/
inductive TickOutcome
  | completed (lastFetchTime : Int) (queue : List MetricTimeMap)
  | blockedOnChannel (lastFetchTime : Int) (pendingBatch : MetricTimeMap)
      (queue : List MetricTimeMap)
deriving DecidableEq, Repr

/-- The send writeChan <- maps on the buffered channel of capacity
logFlushQueueSize: with room the batch is appended and the sender
continues (some queue); with a full buffer the send statement has no
default branch, so the sending goroutine blocks until the flush
consumer makes room (none). -/
def chanSendBlocking (queue : List MetricTimeMap) (m : MetricTimeMap) :
    Option (List MetricTimeMap) :=
  if queue.length < logFlushQueueSize then some (queue ++ [m]) else none

/-- doAggregate followed by the channel send: the tick completes with
the updated queue, or, when a non-empty batch meets a full channel, the
aggregation goroutine is left blocked in the send. -/
def doAggregateTick (cns : List NodeModel) (inboundNode : NodeModel) (now : Nat)
    (lastFetchTime : Int) (queue : List MetricTimeMap) : TickOutcome :=
  match (doAggregate cns inboundNode now lastFetchTime).2 with
  | none => TickOutcome.completed (doAggregate cns inboundNode now lastFetchTime).1 queue
  | some b =>
    match chanSendBlocking queue b with
    | some q2 => TickOutcome.completed (doAggregate cns inboundNode now lastFetchTime).1 q2
    | none =>
      TickOutcome.blockedOnChannel (doAggregate cns inboundNode now lastFetchTime).1 b queue

/-- Claim C7 counterexample: with a non-empty batch (one active item in
the window) and the write channel already holding 60 entries, the tick
ends blocked in the channel send.  The claim says the aggregator drops
the batch and logs rather than waiting; the source sends with
writeChan <- maps, which has no default branch, so the goroutine waits
for the flush consumer instead of dropping. -/
theorem aggregator_full_channel_cex :
    doAggregateTick [nodeW] inbW 2500 0 (List.replicate 60 []) =
      TickOutcome.blockedOnChannel ((2000 : Nat) : Int)
        [(1000, [⟨1000, 3, 0, 0, 0, 0, 0, "r", 0⟩])] (List.replicate 60 []) := by
  decide

/-- Claim C7 as amended: when doAggregate produces a batch, the send on
the capacity-60 write channel appends it when the channel has room, and
blocks the aggregation goroutine (the batch is neither dropped nor
delivered until the flush consumer makes room) when the channel is
full. -/
theorem aggregator_full_channel_blocks (cns : List NodeModel) (inboundNode : NodeModel)
    (now : Nat) (L : Int) (queue : List MetricTimeMap) (b : MetricTimeMap)
    (h : (doAggregate cns inboundNode now L).2 = some b) :
    (logFlushQueueSize ≤ queue.length →
      doAggregateTick cns inboundNode now L queue =
        TickOutcome.blockedOnChannel (doAggregate cns inboundNode now L).1 b queue) ∧
    (queue.length < logFlushQueueSize →
      doAggregateTick cns inboundNode now L queue =
        TickOutcome.completed (doAggregate cns inboundNode now L).1 (queue ++ [b])) := by
  constructor
  · intro hfull
    unfold doAggregateTick
    rw [h]
    simp only []
    unfold chanSendBlocking
    rw [if_neg (by omega)]
  · intro hroom
    unfold doAggregateTick
    rw [h]
    simp only []
    unfold chanSendBlocking
    rw [if_pos hroom]

/-- Witness for aggregator_full_channel_blocks: the same concrete batch
against a full and a non-full channel. -/
theorem aggregator_full_channel_blocks_witness :
    doAggregateTick [nodeW] inbW 2500 0 (List.replicate 60 []) =
      TickOutcome.blockedOnChannel (doAggregate [nodeW] inbW 2500 0).1
        [(1000, [⟨1000, 3, 0, 0, 0, 0, 0, "r", 0⟩])] (List.replicate 60 []) ∧
    doAggregateTick [nodeW] inbW 2500 0 [] =
      TickOutcome.completed (doAggregate [nodeW] inbW 2500 0).1
        ([] ++ [[(1000, [⟨1000, 3, 0, 0, 0, 0, 0, "r", 0⟩])]]) :=
  ⟨(aggregator_full_channel_blocks [nodeW] inbW 2500 0 (List.replicate 60 [])
      [(1000, [⟨1000, 3, 0, 0, 0, 0, 0, "r", 0⟩])] rfl).1 (by decide),
   (aggregator_full_channel_blocks [nodeW] inbW 2500 0 []
      [(1000, [⟨1000, 3, 0, 0, 0, 0, 0, "r", 0⟩])] rfl).2 (by decide)⟩

end Sentinel
